import Mathlib

/-!
# Verification of the Data Profiler & Cleaner core (`src/app.py`)

A shallow embedding of the profiling and cleaning logic of the single-file
Flask app.  The in-memory `pandas.DataFrame` is modelled as an ordered list of
named, typed columns; a cell is `Option Value` where `none` models a missing
value (`NaN`).  Numbers are modelled as rationals (the CSV ingestion layer is
outside the core, and no claim depends on binary floating-point rounding of
the data values themselves).

Columns coming out of `pd.read_csv` are homogeneous: a numeric-dtype column
holds only numbers (or `NaN`), an object-dtype column holds only strings (or
`NaN`).  The `numeric` flag on a column models the pandas dtype that
`select_dtypes`/`is_numeric_dtype` inspect.
-/

/-- A cell value: a number (pandas numeric dtypes, modelled as `ℚ`) or a
string (object dtype). -/
inductive Value where
  | num (q : ℚ)
  | str (s : String)
deriving DecidableEq, Repr

/-- A cell of a column: `none` models a missing value (`NaN`). -/
abbrev Cell := Option Value

/-- A named column with its pandas dtype class (`numeric = true` iff
`pd.api.types.is_numeric_dtype` holds for it, equivalently iff
`select_dtypes(include="number")` selects it). -/
structure Column where
  name : String
  numeric : Bool
  cells : List Cell
deriving DecidableEq, Repr

/-- A dataset (`pandas.DataFrame`): an ordered list of columns. -/
structure Dataset where
  cols : List Column
deriving DecidableEq, Repr

/-- The non-missing values of a list of cells, in row order
(what pandas operations with `skipna`/`dropna` see). -/
def nonMissing (cells : List Cell) : List Value :=
  cells.filterMap id

/-- The number of non-missing cells of a column (`Series.count()`,
the non-NA count used by `dropna(axis=1, thresh=...)`). -/
def Column.nonMissingCount (c : Column) : Nat :=
  (nonMissing c.cells).length

/-- The numeric values among the non-missing cells, in row order.  For a
numeric-dtype column this is exactly the list of non-missing values. -/
def numVals (cells : List Cell) : List ℚ :=
  cells.filterMap (fun cell =>
    match cell with
    | some (Value.num q) => some q
    | _ => none)

/-- `len(df)`: the number of rows.  All columns of a well-formed dataset have
the same length; we read it off the first column (0 for a column-less frame,
which no cleaning step acts on anyway). -/
def Dataset.rowCount (ds : Dataset) : Nat :=
  match ds.cols with
  | [] => 0
  | c :: _ => c.cells.length

/-- All columns have the row count's length and names are unique
(a `DataFrame` as produced by `read_csv`). -/
def Dataset.Wellformed (ds : Dataset) : Prop :=
  (∀ c ∈ ds.cols, c.cells.length = ds.rowCount) ∧
    (ds.cols.map Column.name).Nodup

/-- The mean of a list of rationals; `Series.mean()` skips missing values, so
this is only ever applied to `numVals`.  (Meaningless for `[]`; the callers
guard that case, as `fillna(NaN)` is a no-op.) -/
def listMean (xs : List ℚ) : ℚ :=
  xs.sum / xs.length

/-- Non-strict lexicographic order on character lists by code point: how
Python (and hence `np.sort` on an object array of `str`) compares strings. -/
def charListLe : List Char → List Char → Bool
  | [], _ => true
  | _ :: _, [] => false
  | a :: as, b :: bs =>
    if a.toNat < b.toNat then true
    else if b.toNat < a.toNat then false
    else charListLe as bs

/-- The order `np.sort` uses on the (homogeneous) values of one column:
numbers by value, strings lexicographically by code point.  A mixed column
cannot arise from CSV ingestion; the cross-constructor case is arbitrary. -/
def Value.le : Value → Value → Bool
  | Value.num a, Value.num b => a ≤ b
  | Value.num _, Value.str _ => true
  | Value.str _, Value.num _ => false
  | Value.str a, Value.str b => charListLe a.data b.data

/-- The maximal frequency among the non-missing values (`value_counts().max()`
inside `mode`); `0` for an empty value list. -/
def maxCount (vals : List Value) : Nat :=
  ((vals.dedup).map (fun v => vals.count v)).foldr max 0

/-- The distinct non-missing values of maximal frequency
(the content of `Series.mode(dropna=True)`; only the set matters here, the
order is fixed by the sort below). -/
def modeCandidates (cells : List Cell) : List Value :=
  let vals := nonMissing cells
  (vals.dedup).filter (fun v => vals.count v = maxCount vals)

/-- `Series.mode(dropna=True)[0]`: pandas sorts the tied modes ascending
(`np.sort` inside `algorithms.mode`), so element 0 is the least tied value;
`none` when the column has no non-missing value (`mode.empty`). -/
def modeZero (cells : List Cell) : Option Value :=
  match modeCandidates cells with
  | [] => none
  | v :: vs => some (vs.foldl (fun acc w => if Value.le w acc then w else acc) v)

/-! ## The cleaning pipeline (`clean`, src/app.py lines 217–252)

Each step mirrors one `if` block of the route handler; the dataframe is
rebound after each enabled step, so later steps see the earlier steps'
output. -/

/-- The recognized cleaning options (the form fields of the `/clean` route).
`dropColumns` is the `drop_cols` multi-select list. -/
structure CleaningOptions where
  dropColumns : List String
  dropDuplicateRows : Bool
  dropSparseColumns : Bool
  fillNumericMean : Bool
  fillCategoricalMode : Bool

/-- `df.drop(columns=drop_cols, errors="ignore")`: remove every column whose
name is in the list; names matching nothing are ignored. -/
def dropColumnsStep (ds : Dataset) (names : List String) : Dataset :=
  ⟨ds.cols.filter (fun c => ¬ c.name ∈ names)⟩

/-- Row `i` of the dataset, as the list of the columns' `i`-th cells
(totalized with `none` off the end; well-formed datasets never hit that). -/
def Dataset.getRow (ds : Dataset) (i : Nat) : List Cell :=
  ds.cols.map (fun c => c.cells.getD i none)

/-- Row `i` is a duplicate of an earlier row (`df.duplicated()`, `keep="first"`;
pandas compares `NaN` equal to `NaN` here, as does `none = none`). -/
def Dataset.isDupRow (ds : Dataset) (i : Nat) : Bool :=
  (List.range i).any (fun j => ds.getRow j == ds.getRow i)

/-- `df.drop_duplicates()`: keep exactly the rows that are not duplicates of
an earlier row, in order. -/
def dropDuplicatesStep (ds : Dataset) : Dataset :=
  let keep := (List.range ds.rowCount).filter (fun i => ¬ ds.isDupRow i)
  ⟨ds.cols.map (fun c => ⟨c.name, c.numeric, keep.map (fun i => c.cells.getD i none)⟩)⟩

/-- `thresh = len(df) * 0.5; df.dropna(axis=1, thresh=thresh)`: keep a column
iff its non-NA count is ≥ half the current row count. -/
def dropSparseStep (ds : Dataset) : Dataset :=
  ⟨ds.cols.filter (fun c => ((c.nonMissingCount : ℚ) ≥ (ds.rowCount : ℚ) * (1/2) : Bool))⟩

/-- One iteration of the `fill_numeric_mean` loop on one column:
`df[col].fillna(df[col].mean(), inplace=True)` for numeric columns
(`mean()` of an all-missing column is `NaN` and filling with `NaN` changes
nothing). -/
def fillNumericCol (c : Column) : Column :=
  if c.numeric then
    let vals := numVals c.cells
    if vals.isEmpty then c
    else ⟨c.name, c.numeric, c.cells.map (fun cell => some (cell.getD (Value.num (listMean vals))))⟩
  else c

/-- `for col in df.select_dtypes(include="number"): df[col].fillna(mean, inplace=True)`. -/
def fillNumericStep (ds : Dataset) : Dataset :=
  ⟨ds.cols.map fillNumericCol⟩

/-- One iteration of the `fill_categorical_mode` loop on one column:
`mode = df[col].mode(dropna=True); if not mode.empty: df[col].fillna(mode[0], inplace=True)`
for non-numeric columns. -/
def fillCategoricalCol (c : Column) : Column :=
  if c.numeric then c
  else
    match modeZero c.cells with
    | none => c
    | some m => ⟨c.name, c.numeric, c.cells.map (fun cell => some (cell.getD m))⟩

/-- `for col in df.select_dtypes(exclude="number"): ...` mode fill. -/
def fillCategoricalStep (ds : Dataset) : Dataset :=
  ⟨ds.cols.map fillCategoricalCol⟩

/-- The cleaning route's pipeline (src/app.py lines 228–247): the five
optional steps in source order, each rebinding `df`.  `if drop_cols:` is
Python truthiness, i.e. the drop step runs only on a non-empty list. -/
def clean (ds : Dataset) (opts : CleaningOptions) : Dataset :=
  let df := ds
  let df := if opts.dropColumns.isEmpty then df else dropColumnsStep df opts.dropColumns
  let df := if opts.dropDuplicateRows then dropDuplicatesStep df else df
  let df := if opts.dropSparseColumns then dropSparseStep df else df
  let df := if opts.fillNumericMean then fillNumericStep df else df
  let df := if opts.fillCategoricalMode then fillCategoricalStep df else df
  df

/-- The pipeline stopped after the sparse-column step: the dataframe state
the two fill steps start from. -/
def cleanThroughSparse (ds : Dataset) (opts : CleaningOptions) : Dataset :=
  let df := ds
  let df := if opts.dropColumns.isEmpty then df else dropColumnsStep df opts.dropColumns
  let df := if opts.dropDuplicateRows then dropDuplicatesStep df else df
  let df := if opts.dropSparseColumns then dropSparseStep df else df
  df

/-- The pipeline stopped after the numeric-fill step: the dataframe state the
categorical-fill step starts from. -/
def cleanThroughNumeric (ds : Dataset) (opts : CleaningOptions) : Dataset :=
  let df := cleanThroughSparse ds opts
  if opts.fillNumericMean then fillNumericStep df else df

/-! ## The profiler (`df_profile` and `correlation_heatmap`, src/app.py 124–170)

`None` fields model `NaN` entries of the profile table: `describe()` keys are
absent for non-numeric columns (so `pd.DataFrame(rows)` fills them with
`NaN`), and within `describe()` the degenerate statistics are `NaN`. -/

/-- Python's bankers rounding to the nearest integer (ties to even), the
semantics of builtin `round`. -/
def pyRoundInt (x : ℚ) : ℤ :=
  let f := ⌊x⌋
  if x - f < 1/2 then f
  else if 1/2 < x - f then f + 1
  else if f % 2 = 0 then f else f + 1

/-- `round(x, 2)`.  (Python rounds the binary-float image of `x`; the two
agree whenever `x` is exactly representable, and no claim rests on a
half-way tie of an inexact float.) -/
def pyRound2 (x : ℚ) : ℚ :=
  (pyRoundInt (x * 100) : ℚ) / 100

/-- `s.duplicated().sum()` with `keep="first"`: the number of cells equal to
some earlier cell of the same column.  pandas compares `NaN` equal to `NaN`
in `duplicated`, matching `none = none`.  `seen` accumulates the cells already
scanned. -/
def dupCountAux (seen : List Cell) : List Cell → Nat
  | [] => 0
  | c :: rest => (if c ∈ seen then 1 else 0) + dupCountAux (c :: seen) rest

/-- `int(s.duplicated().sum())` for one column. -/
def dupCount (cells : List Cell) : Nat :=
  dupCountAux [] cells

/-- Sample standard deviation as reported by `describe()` (`ddof=1`), carried
as its square (the sample variance), since the square root of a rational is
not rational: the field is `none` exactly when pandas reports `NaN`
(fewer than 2 values), and it is `0` exactly when the pandas `std` is `0`. -/
def sampleVarQ (xs : List ℚ) : Option ℚ :=
  if xs.length < 2 then none
  else some (((xs.map (fun x => (x - listMean xs) ^ 2)).sum) / ((xs.length : ℚ) - 1))

/-- Percentile with linear interpolation over the values sorted ascending
(numpy's default `quantile` interpolation, used by `describe`): `none` when
there are no values. -/
def percentileQ (xs : List ℚ) (p : ℚ) : Option ℚ :=
  let sorted := xs.mergeSort (fun a b => a ≤ b)
  match sorted with
  | [] => none
  | v :: _ =>
    let h := p * ((sorted.length : ℚ) - 1)
    let i := (⌊h⌋).toNat
    let lo := sorted.getD i v
    let hi := sorted.getD (i + 1) lo
    some (lo + (h - (i : ℚ)) * (hi - lo))

/-- One row of the profile table (the `info` dict of `df_profile`).  The
`describe()` statistics are present only for numeric columns. -/
structure ColumnProfile where
  column : String
  numericDtype : Bool
  missing : Nat
  missing_pct : Option ℚ
  unique : Nat
  duplicates : Nat
  count : Option Nat
  mean : Option ℚ
  std : Option ℚ
  min : Option ℚ
  q25 : Option ℚ
  q50 : Option ℚ
  q75 : Option ℚ
  max : Option ℚ
deriving DecidableEq, Repr

/-- The profile of one column (one loop iteration of `df_profile`).
`missing_pct = round(s.isna().mean()*100, 2)`: the mean of an empty boolean
series is `NaN`, so a zero-row column gets `none`, not `0`.
`unique = s.nunique(dropna=False)` counts `NaN` as one extra distinct value. -/
def profileCol (c : Column) : ColumnProfile :=
  let n := c.cells.length
  let miss := c.cells.count none
  let vals := numVals c.cells
  { column := c.name
    numericDtype := c.numeric
    missing := miss
    missing_pct := if n = 0 then none else some (pyRound2 ((miss : ℚ) / (n : ℚ) * 100))
    unique := c.cells.dedup.length
    duplicates := dupCount c.cells
    count := if c.numeric then some vals.length else none
    mean := if c.numeric ∧ ¬ vals.isEmpty then some (listMean vals) else none
    std := if c.numeric then sampleVarQ vals else none
    min := if c.numeric then percentileQ vals 0 else none
    q25 := if c.numeric then percentileQ vals (1/4) else none
    q50 := if c.numeric then percentileQ vals (1/2) else none
    q75 := if c.numeric then percentileQ vals (3/4) else none
    max := if c.numeric then percentileQ vals 1 else none }

/-- `df_profile(df)`: one profile row per column, in column order. -/
def df_profile (ds : Dataset) : List ColumnProfile :=
  ds.cols.map profileCol

/-- `df.select_dtypes(include="number")`: the numeric sub-frame. -/
def numericCols (ds : Dataset) : List Column :=
  ds.cols.filter (fun c => c.numeric)

/-- `correlation_heatmap(df)`: `None` when the numeric sub-frame has fewer
than two columns; otherwise the correlation artifact is requested.  The
artifact is modelled by the data selection it is computed from (the numeric
sub-frame); the Pearson matrix values and their rasterization are rendering
mechanics outside the core per the design scope. -/
def correlation_heatmap (ds : Dataset) : Option (List Column) :=
  let num_df := numericCols ds
  if num_df.length < 2 then none
  else some num_df

/-! ## Spec-contrast definitions and concrete inputs

The two definitions below follow the spec claims word for word (not the
source) so that the source behaviour can be compared against them; the
concrete datasets instantiate claims at explicit inputs. -/

/-- The tie-break the spec claims for mode fill: the first value, in row
order of first encounter, among those of maximal frequency.  Follows the
spec words; `modeZero` above follows the source. -/
def modeFirstEncountered (cells : List Cell) : Option Value :=
  let vals := nonMissing cells
  vals.find? (fun v => vals.count v = maxCount vals)

/-- Dropping sparse columns with the threshold taken from the
pre-deduplication row count: the alternative the spec's order-sensitivity
claim rules out.  Keep predicate stated over `ℕ` (`r ≤ 2·nonMissing`
is `nonMissing ≥ r·0.5`). -/
def dropSparseOrigThreshold (orig : Dataset) (ds : Dataset) : Dataset :=
  ⟨ds.cols.filter (fun c => orig.rowCount ≤ 2 * c.nonMissingCount)⟩

/-- Three rows; rows 0 and 1 coincide, so deduplication keeps rows 0 and 2.
Column "B" then has 1 non-missing cell of 2 rows (kept at the post-dedup
threshold) but only 1 of the original 3 rows (dropped at the original-count
threshold). -/
def exDedup : Dataset :=
  ⟨[⟨"A", true, [some (Value.num 1), some (Value.num 1), some (Value.num 2)]⟩,
    ⟨"B", true, [none, none, some (Value.num 5)]⟩]⟩

/-- Ten rows: column "A" is 60% missing (4 non-missing), column "B" exactly
50% missing (5 non-missing). -/
def exSparse : Dataset :=
  ⟨[⟨"A", true, [some (Value.num 1), some (Value.num 2), some (Value.num 3),
                 some (Value.num 4), none, none, none, none, none, none]⟩,
    ⟨"B", true, [some (Value.num 1), some (Value.num 2), some (Value.num 3),
                 some (Value.num 4), some (Value.num 5), none, none, none, none, none]⟩]⟩

/-- A text column whose non-missing values "b" and "a" are tied with one
occurrence each; "b" is encountered first, "a" is the least. -/
def exTie : Dataset :=
  ⟨[⟨"c", false, [some (Value.str "b"), some (Value.str "a"), none]⟩]⟩

/-- The spec's §8 numeric scenario column: values 10, missing, 10, 30. -/
def exScore : Column :=
  ⟨"score", true, [some (Value.num 10), none, some (Value.num 10), some (Value.num 30)]⟩

/-- A one-column dataset around `exScore`. -/
def exNumFill : Dataset := ⟨[exScore]⟩

/-- Only the numeric mean fill enabled. -/
def optsNumFill : CleaningOptions := ⟨[], false, false, true, false⟩

/-- A text column with one non-missing value and one missing cell. -/
def exCity : Column := ⟨"city", false, [some (Value.str "x"), none]⟩

/-- A one-column dataset around `exCity`. -/
def exCatFill : Dataset := ⟨[exCity]⟩

/-- Only the categorical mode fill enabled. -/
def optsCatFill : CleaningOptions := ⟨[], false, false, false, true⟩

/-- A numeric column with a single non-missing value: its sample standard
deviation is undefined. -/
def exSingleton : Column := ⟨"n1", true, [some (Value.num 5), none]⟩

/-- A column with three missing cells among otherwise distinct values. -/
def exMissCol : Column :=
  ⟨"m", true, [none, some (Value.num 1), none, none, some (Value.num 2)]⟩

/-- A zero-row numeric column (a header-only CSV column). -/
def exZeroRows : Column := ⟨"x", true, []⟩

/-! ## Helper lemmas -/

/-- The pandas keep condition `count >= len(df) * 0.5`, over `ℚ`, is the
`ℕ` condition `rowCount ≤ 2 * count`. -/
theorem sparse_keep_iff (a r : ℕ) : ((a : ℚ) ≥ (r : ℚ) * (1/2)) ↔ r ≤ 2 * a := by
  rw [ge_iff_le]
  constructor
  · intro h
    have h2 : (r : ℚ) ≤ 2 * (a : ℚ) := by linarith
    exact_mod_cast h2
  · intro h
    have h2 : (r : ℚ) ≤ 2 * (a : ℚ) := by exact_mod_cast h
    linarith

/-- `dropSparseStep` keeps exactly the columns with at least half the rows
non-missing, stated over `ℕ`. -/
theorem dropSparseStep_eq (ds : Dataset) :
    dropSparseStep ds = ⟨ds.cols.filter (fun c => ds.rowCount ≤ 2 * c.nonMissingCount)⟩ := by
  unfold dropSparseStep
  congr 1
  apply List.filter_congr
  intro c _
  simp only [decide_eq_decide]
  exact sparse_keep_iff _ _

/-! ## Claim theorems -/

/-- C5: cleaning with every option disabled (empty drop-column list, all
flags false) returns the input dataset unchanged: same columns in the same
order, same rows, same cells. -/
theorem clean_all_disabled_id (ds : Dataset) :
    clean ds ⟨[], false, false, false, false⟩ = ds := rfl

/-- C7: the correlation artifact is requested iff the dataset has at least
two numeric columns. -/
theorem correlation_iff_two_numeric (ds : Dataset) :
    (correlation_heatmap ds).isSome = true ↔ 2 ≤ (numericCols ds).length := by
  unfold correlation_heatmap
  by_cases h : (numericCols ds).length < 2
  · simp only [if_pos h, Option.isSome_none]
    constructor
    · intro hh; cases hh
    · intro hh; omega
  · simp only [if_neg h, Option.isSome_some]
    constructor
    · intro _; omega
    · intro _; trivial

/-- C9: the drop-columns step removes exactly the columns whose names occur
in the requested list; unknown names are ignored without error, and every
other column is kept unchanged, in order. -/
theorem drop_columns_exact (ds : Dataset) (names : List String) :
    clean ds ⟨names, false, false, false, false⟩ =
      ⟨ds.cols.filter (fun c => ¬ c.name ∈ names)⟩ := by
  by_cases h : names.isEmpty
  · have hnil : names = [] := by
      cases names with
      | nil => rfl
      | cons a l => simp [List.isEmpty] at h
    subst hnil
    cases ds with
    | mk cols =>
      show Dataset.mk cols = _
      simp
  · simp [clean, h, dropColumnsStep]

/-- C4 (code bug witness): for a zero-row column the code's
`round(s.isna().mean()*100, 2)` is the mean of an empty series, i.e. `NaN`
(modelled `none`) — not the `0` the claim specifies. -/
theorem missing_pct_zero_rows_nan :
    (profileCol exZeroRows).missing_pct = none ∧
      (profileCol exZeroRows).missing_pct ≠ some 0 := by
  constructor
  · rfl
  · intro h
    cases h

/-- C8: for a numeric column with fewer than two non-missing values the
profile is still produced (the embedding is a total function) and its
standard-deviation field is the undefined sentinel (`none`, pandas `NaN`),
in particular never `0`. -/
theorem std_undefined_below_two (c : Column) (hnum : c.numeric = true)
    (hlt : (numVals c.cells).length < 2) :
    (profileCol c).std = none ∧ (profileCol c).std ≠ some 0 := by
  have h : (profileCol c).std = sampleVarQ (numVals c.cells) := by
    simp [profileCol, hnum]
  rw [h, sampleVarQ, if_pos hlt]
  exact ⟨rfl, by simp⟩

/-- Witness for C8 at a singleton numeric column. -/
theorem std_undefined_below_two_witness :
    (profileCol exSingleton).std = none ∧ (profileCol exSingleton).std ≠ some 0 :=
  std_undefined_below_two exSingleton rfl (by decide)

/-- C2: with `dropSparseColumns` enabled (alone), the surviving columns are
exactly those whose non-missing count is at least half the row count (the
drop condition is strict); concretely, a 60%-missing column is dropped
while an exactly-50%-missing column is retained. -/
theorem sparse_drop_strict_threshold :
    (∀ ds : Dataset, clean ds ⟨[], false, true, false, false⟩ =
        ⟨ds.cols.filter (fun c => ds.rowCount ≤ 2 * c.nonMissingCount)⟩) ∧
      (clean exSparse ⟨[], false, true, false, false⟩).cols.map Column.name = ["B"] := by
  have hmain : ∀ ds : Dataset, clean ds ⟨[], false, true, false, false⟩ =
      ⟨ds.cols.filter (fun c => ds.rowCount ≤ 2 * c.nonMissingCount)⟩ := by
    intro ds
    have h0 : clean ds ⟨[], false, true, false, false⟩ = dropSparseStep ds := rfl
    rw [h0, dropSparseStep_eq]
  refine ⟨hmain, ?_⟩
  rw [hmain exSparse]
  decide

/-- C1: with both `dropDuplicateRows` and `dropSparseColumns` enabled, the
sparsity threshold is taken from the row count after duplicate removal: the
result keeps exactly the post-deduplication columns with at least half of
the *deduplicated* rows non-missing, and on `exDedup` it differs from what
the original-row-count threshold would produce. -/
theorem sparse_threshold_post_dedup :
    (∀ ds : Dataset, clean ds ⟨[], true, true, false, false⟩ =
        ⟨(dropDuplicatesStep ds).cols.filter
          (fun c => (dropDuplicatesStep ds).rowCount ≤ 2 * c.nonMissingCount)⟩) ∧
      clean exDedup ⟨[], true, true, false, false⟩ ≠
        dropSparseOrigThreshold exDedup (dropDuplicatesStep exDedup) := by
  have hmain : ∀ ds : Dataset, clean ds ⟨[], true, true, false, false⟩ =
      ⟨(dropDuplicatesStep ds).cols.filter
        (fun c => (dropDuplicatesStep ds).rowCount ≤ 2 * c.nonMissingCount)⟩ := by
    intro ds
    have h0 : clean ds ⟨[], true, true, false, false⟩ =
        dropSparseStep (dropDuplicatesStep ds) := rfl
    rw [h0, dropSparseStep_eq]
  refine ⟨hmain, ?_⟩
  rw [hmain exDedup]
  decide

/-- `dupCountAux` over a column whose non-missing cells are pairwise
distinct: every cell already in `seen` counts, and among the rest only the
repeated missing cells count. -/
theorem dupCountAux_of_nodup (cells : List Cell) : ∀ seen : List Cell,
    (nonMissing cells).Nodup →
    (∀ x ∈ cells, x ≠ none → x ∉ seen) →
    dupCountAux seen cells =
      (if (none : Cell) ∈ seen then cells.count none else cells.count none - 1) := by
  induction cells with
  | nil =>
    intro seen _ _
    simp [dupCountAux]
  | cons c rest ih =>
    intro seen hnd hs
    cases c with
    | none =>
      have hnd' : (nonMissing rest).Nodup := by
        simpa [nonMissing] using hnd
      have hs' : ∀ x ∈ rest, x ≠ none → x ∉ ((none : Cell) :: seen) := by
        intro x hx hxn
        simp only [List.mem_cons, not_or]
        exact ⟨hxn, hs x (List.mem_cons_of_mem _ hx) hxn⟩
      simp only [dupCountAux]
      rw [ih ((none : Cell) :: seen) hnd' hs']
      have hin : (none : Cell) ∈ ((none : Cell) :: seen) := List.mem_cons_self _ _
      rw [if_pos hin]
      by_cases hmem : (none : Cell) ∈ seen
      · rw [if_pos hmem, if_pos hmem]
        simp [List.count_cons]
        omega
      · rw [if_neg hmem, if_neg hmem]
        simp [List.count_cons]
    | some v =>
      have hsplit : nonMissing (some v :: rest) = v :: nonMissing rest := by
        simp [nonMissing]
      rw [hsplit] at hnd
      have hnd' := List.nodup_cons.mp hnd
      have hvs : (some v : Cell) ∉ seen :=
        hs (some v) (List.mem_cons_self _ _) (by simp)
      have hs' : ∀ x ∈ rest, x ≠ none → x ∉ ((some v : Cell) :: seen) := by
        intro x hx hxn
        simp only [List.mem_cons, not_or]
        refine ⟨?_, hs x (List.mem_cons_of_mem _ hx) hxn⟩
        intro hxv
        subst hxv
        exact hnd'.1 (List.mem_filterMap.mpr ⟨some v, hx, rfl⟩)
      simp only [dupCountAux]
      rw [if_neg hvs, ih ((some v : Cell) :: seen) hnd'.2 hs']
      have hcount : ((some v : Cell) :: rest).count none = rest.count none := by
        simp [List.count_cons]
      by_cases hmem : (none : Cell) ∈ seen
      · have hmem' : (none : Cell) ∈ ((some v : Cell) :: seen) :=
          List.mem_cons_of_mem _ hmem
        rw [if_pos hmem', if_pos hmem, hcount]
        omega
      · have hmem' : (none : Cell) ∉ ((some v : Cell) :: seen) := by
          simp only [List.mem_cons, not_or]
          exact ⟨by simp, hmem⟩
        rw [if_neg hmem', if_neg hmem, hcount]
        omega

/-- C10: the per-column `duplicates` count treats missing cells as equal to
each other: in a column whose non-missing values are pairwise distinct and
that has k ≥ 2 missing cells, each missing cell after the first contributes
one duplicate, so `duplicates = k - 1`. -/
theorem missing_cells_count_as_duplicates (c : Column)
    (h1 : (nonMissing c.cells).Nodup) (_h2 : 2 ≤ c.cells.count none) :
    (profileCol c).duplicates = c.cells.count none - 1 := by
  have h := dupCountAux_of_nodup c.cells [] h1 (by intro x _ _; simp)
  rw [if_neg (by simp)] at h
  simpa [profileCol, dupCount] using h

/-- Witness for C10: a column with three missing cells among otherwise
distinct values reports two duplicates. -/
theorem missing_cells_count_as_duplicates_witness :
    (nonMissing exMissCol.cells).Nodup ∧ 2 ≤ exMissCol.cells.count none ∧
      (profileCol exMissCol).duplicates = exMissCol.cells.count none - 1 :=
  ⟨by decide, by decide, missing_cells_count_as_duplicates exMissCol (by decide) (by decide)⟩

theorem charListLe_refl (as : List Char) : charListLe as as = true := by
  induction as with
  | nil => rfl
  | cons a as ih => simp [charListLe, ih]

theorem charListLe_total (as bs : List Char) :
    charListLe as bs = true ∨ charListLe bs as = true := by
  induction as generalizing bs with
  | nil => left; rfl
  | cons a as ih =>
    cases bs with
    | nil => right; rfl
    | cons b bs =>
      simp only [charListLe]
      rcases Nat.lt_trichotomy a.toNat b.toNat with h | h | h
      · left; simp [h]
      · rcases ih bs with h' | h'
        · left; simp [h, h']
        · right; simp [h, h']
      · right; simp [h]

theorem charListLe_trans {as bs cs : List Char} (h1 : charListLe as bs = true)
    (h2 : charListLe bs cs = true) : charListLe as cs = true := by
  induction as generalizing bs cs with
  | nil => rfl
  | cons a as ih =>
    cases bs with
    | nil => simp [charListLe] at h1
    | cons b bs =>
      cases cs with
      | nil => simp [charListLe] at h2
      | cons c cs =>
        simp only [charListLe] at h1 h2 ⊢
        rcases Nat.lt_trichotomy a.toNat b.toNat with hab | hab | hab
        · rcases Nat.lt_trichotomy b.toNat c.toNat with hbc | hbc | hbc
          · simp [Nat.lt_trans hab hbc]
          · simp [hbc ▸ hab]
          · simp [Nat.lt_asymm hbc, hbc] at h2
        · rcases Nat.lt_trichotomy b.toNat c.toNat with hbc | hbc | hbc
          · simp [hab ▸ hbc]
          · have hac : ¬ a.toNat < c.toNat := by omega
            have hca : ¬ c.toNat < a.toNat := by omega
            simp only [if_neg hac, if_neg hca]
            simp [Nat.lt_irrefl, hab] at h1
            simp [Nat.lt_irrefl, hbc] at h2
            exact ih h1 h2
          · simp [Nat.lt_asymm hbc, hbc] at h2
        · simp [Nat.lt_asymm hab, hab] at h1

theorem valueLe_refl (a : Value) : Value.le a a = true := by
  cases a with
  | num q => simp [Value.le]
  | str s => simp [Value.le, charListLe_refl]

theorem valueLe_total (a b : Value) : Value.le a b = true ∨ Value.le b a = true := by
  cases a <;> cases b <;> simp [Value.le]
  · exact le_total _ _
  · exact charListLe_total _ _

theorem valueLe_trans {a b c : Value} (h1 : Value.le a b = true)
    (h2 : Value.le b c = true) : Value.le a c = true := by
  cases a <;> cases b <;> cases c <;> simp [Value.le] at h1 h2 ⊢
  · exact le_trans h1 h2
  · exact charListLe_trans h1 h2

theorem mem_le_foldr_max {L : List ℕ} {a : ℕ} (h : a ∈ L) : a ≤ L.foldr max 0 := by
  induction L with
  | nil => cases h
  | cons b L ih =>
    rcases List.mem_cons.mp h with rfl | h'
    · exact le_max_left _ _
    · exact le_trans (ih h') (le_max_right _ _)

theorem foldr_max_mem_or_zero (L : List ℕ) : L.foldr max 0 ∈ L ∨ L.foldr max 0 = 0 := by
  induction L with
  | nil => right; rfl
  | cons a L ih =>
    simp only [List.foldr]
    rcases le_total a (L.foldr max 0) with h | h
    · rw [max_eq_right h]
      rcases ih with h' | h'
      · exact Or.inl (List.mem_cons_of_mem _ h')
      · exact Or.inr h'
    · rw [max_eq_left h]
      exact Or.inl (List.mem_cons_self _ _)

theorem count_le_maxCount (vals : List Value) (v : Value) (hv : v ∈ vals) :
    vals.count v ≤ maxCount vals :=
  mem_le_foldr_max (List.mem_map.mpr ⟨v, List.mem_dedup.mpr hv, rfl⟩)

theorem maxCount_attained (vals : List Value) (h : vals ≠ []) :
    ∃ v ∈ vals, vals.count v = maxCount vals := by
  rcases foldr_max_mem_or_zero ((vals.dedup).map (fun v => vals.count v)) with hm | hz
  · obtain ⟨v, hvd, hcnt⟩ := List.mem_map.mp hm
    exact ⟨v, List.mem_dedup.mp hvd, hcnt⟩
  · obtain ⟨v0, hv0⟩ := List.exists_mem_of_ne_nil vals h
    have h1 : 0 < vals.count v0 := List.count_pos_iff.mpr hv0
    have h2 : vals.count v0 ≤ maxCount vals := count_le_maxCount vals v0 hv0
    have h3 : maxCount vals = 0 := hz
    omega

theorem foldlMin_mem (v : Value) (vs : List Value) :
    vs.foldl (fun acc w => if Value.le w acc then w else acc) v ∈ v :: vs := by
  induction vs generalizing v with
  | nil => simp [List.foldl]
  | cons w vs ih =>
    simp only [List.foldl]
    by_cases h : Value.le w v = true
    · rw [if_pos h]
      exact List.mem_cons_of_mem _ (ih w)
    · rw [if_neg h]
      rcases List.mem_cons.mp (ih v) with h' | h'
      · rw [h']
        exact List.mem_cons_self _ _
      · exact List.mem_cons_of_mem _ (List.mem_cons_of_mem _ h')

theorem foldlMin_le (v : Value) (vs : List Value) :
    ∀ u ∈ v :: vs,
      Value.le (vs.foldl (fun acc w => if Value.le w acc then w else acc) v) u = true := by
  induction vs generalizing v with
  | nil =>
    intro u hu
    rcases List.mem_cons.mp hu with rfl | h'
    · exact valueLe_refl u
    · cases h'
  | cons w vs ih =>
    intro u hu
    simp only [List.foldl]
    by_cases h : Value.le w v = true
    · rw [if_pos h]
      rcases List.mem_cons.mp hu with rfl | hu'
      · exact valueLe_trans (ih w w (List.mem_cons_self _ _)) h
      · exact ih w u hu'
    · rw [if_neg h]
      have hvw : Value.le v w = true := by
        rcases valueLe_total v w with h' | h'
        · exact h'
        · exact absurd h' h
      rcases List.mem_cons.mp hu with rfl | hu'
      · exact ih u u (List.mem_cons_self _ _)
      · rcases List.mem_cons.mp hu' with rfl | hu''
        · exact valueLe_trans (ih v v (List.mem_cons_self _ _)) hvw
        · exact ih v u (List.mem_cons_of_mem _ hu'')

theorem modeZero_eq_none (cells : List Cell) (h : nonMissing cells = []) :
    modeZero cells = none := by
  simp [modeZero, modeCandidates, h]

theorem modeZero_isSome (cells : List Cell) (h : nonMissing cells ≠ []) :
    ∃ m, modeZero cells = some m := by
  obtain ⟨v, hv, hcnt⟩ := maxCount_attained (nonMissing cells) h
  have hvc : v ∈ modeCandidates cells := by
    simp only [modeCandidates, List.mem_filter, List.mem_dedup]
    exact ⟨hv, by simpa using hcnt⟩
  cases hmc : modeCandidates cells with
  | nil => rw [hmc] at hvc; cases hvc
  | cons a as =>
    exact ⟨as.foldl (fun acc w => if Value.le w acc then w else acc) a,
      by simp [modeZero, hmc]⟩

/-- `modeZero` returns a most frequent non-missing value that is least (in
the `np.sort` order) among the tied most frequent values. -/
theorem modeZero_spec (cells : List Cell) (m : Value) (h : modeZero cells = some m) :
    m ∈ nonMissing cells ∧
      (∀ v ∈ nonMissing cells, (nonMissing cells).count v ≤ (nonMissing cells).count m) ∧
      (∀ v ∈ nonMissing cells, (nonMissing cells).count v = (nonMissing cells).count m →
        Value.le m v = true) := by
  cases hmc : modeCandidates cells with
  | nil => simp [modeZero, hmc] at h
  | cons a as =>
    have hm_eq : as.foldl (fun acc w => if Value.le w acc then w else acc) a = m := by
      simpa [modeZero, hmc] using h
    have hmem : m ∈ a :: as := hm_eq ▸ foldlMin_mem a as
    have hmin : ∀ u ∈ a :: as, Value.le m u = true := by
      intro u hu
      exact hm_eq ▸ foldlMin_le a as u hu
    rw [← hmc] at hmem hmin
    have hmd := List.mem_filter.mp (by simpa only [modeCandidates] using hmem)
    have hmcnt : (nonMissing cells).count m = maxCount (nonMissing cells) := by
      simpa using hmd.2
    refine ⟨List.mem_dedup.mp hmd.1, ?_, ?_⟩
    · intro v hv
      rw [hmcnt]
      exact count_le_maxCount _ _ hv
    · intro v hv hcnt
      have hvc : v ∈ modeCandidates cells := by
        simp only [modeCandidates, List.mem_filter, List.mem_dedup]
        exact ⟨hv, by simp [hcnt, hmcnt]⟩
      exact hmin v hvc

/-- With the numeric mean fill enabled, `clean` is the two fill steps applied
to the state after the sparse-column step. -/
theorem clean_fillNum_expand (ds : Dataset) (opts : CleaningOptions)
    (h : opts.fillNumericMean = true) :
    clean ds opts =
      (if opts.fillCategoricalMode then
        fillCategoricalStep (fillNumericStep (cleanThroughSparse ds opts))
      else fillNumericStep (cleanThroughSparse ds opts)) := by
  simp only [clean, cleanThroughSparse, h, if_true]

/-- With the categorical mode fill enabled, `clean` is the categorical fill
applied to the state after the numeric-fill step. -/
theorem clean_fillCat_expand (ds : Dataset) (opts : CleaningOptions)
    (h : opts.fillCategoricalMode = true) :
    clean ds opts = fillCategoricalStep (cleanThroughNumeric ds opts) := by
  simp only [clean, cleanThroughNumeric, cleanThroughSparse, h, if_true]

theorem fillNumericCol_numeric (c : Column) : (fillNumericCol c).numeric = c.numeric := by
  by_cases h : c.numeric
  · by_cases hv : (numVals c.cells).isEmpty <;> simp [fillNumericCol, h, hv]
  · simp [fillNumericCol, h]

theorem fillNumericCol_empty (c : Column) (hemp : (numVals c.cells).isEmpty = true) :
    fillNumericCol c = c := by
  by_cases h : c.numeric <;> simp [fillNumericCol, h, hemp]

theorem fillNumericCol_filled (c : Column) (hnum : c.numeric = true)
    (hemp : (numVals c.cells).isEmpty = false) :
    (fillNumericCol c).cells =
      c.cells.map (fun cell => some (cell.getD (Value.num (listMean (numVals c.cells))))) := by
  simp [fillNumericCol, hnum, hemp]

theorem fillCategoricalCol_of_numeric (c : Column) (h : c.numeric = true) :
    fillCategoricalCol c = c := by
  simp [fillCategoricalCol, h]

/-- C6: with `fillNumericMean` enabled, every column that is numeric in the
state after the prior cleaning steps comes out with every formerly missing
cell holding the mean of that column's own non-missing values (computed at
that state), hence with no missing cells, provided it had at least one
non-missing value; an all-missing numeric column passes through unchanged. -/
theorem fill_numeric_mean_fills (ds : Dataset) (opts : CleaningOptions)
    (hopt : opts.fillNumericMean = true) (i : Nat) (c : Column)
    (hc : (cleanThroughSparse ds opts).cols[i]? = some c)
    (hnum : c.numeric = true) :
    ∃ c', (clean ds opts).cols[i]? = some c' ∧
      ((numVals c.cells).isEmpty = true → c' = c) ∧
      ((numVals c.cells).isEmpty = false →
        c'.cells = c.cells.map
          (fun cell => some (cell.getD (Value.num (listMean (numVals c.cells))))) ∧
        ∀ x ∈ c'.cells, x ≠ none) := by
  rw [clean_fillNum_expand ds opts hopt]
  by_cases hcat : opts.fillCategoricalMode
  · rw [if_pos hcat]
    refine ⟨fillCategoricalCol (fillNumericCol c), ?_, ?_, ?_⟩
    · simp only [fillCategoricalStep, fillNumericStep, List.getElem?_map, hc]
      rfl
    · intro hemp
      rw [fillNumericCol_empty c hemp, fillCategoricalCol_of_numeric c hnum]
    · intro hemp
      have hnum' : (fillNumericCol c).numeric = true := by
        rw [fillNumericCol_numeric, hnum]
      rw [fillCategoricalCol_of_numeric _ hnum', fillNumericCol_filled c hnum hemp]
      refine ⟨rfl, ?_⟩
      intro x hx
      obtain ⟨y, _, rfl⟩ := List.mem_map.mp hx
      simp
  · rw [if_neg hcat]
    refine ⟨fillNumericCol c, ?_, ?_, ?_⟩
    · simp only [fillNumericStep, List.getElem?_map, hc]
      rfl
    · intro hemp
      exact fillNumericCol_empty c hemp
    · intro hemp
      rw [fillNumericCol_filled c hnum hemp]
      refine ⟨rfl, ?_⟩
      intro x hx
      obtain ⟨y, _, rfl⟩ := List.mem_map.mp hx
      simp

/-- Witness for C6 at the spec's §8 scenario: the score column 10, missing,
10, 30 with only the mean fill enabled. -/
theorem fill_numeric_mean_fills_witness :
    ∃ c', (clean exNumFill optsNumFill).cols[0]? = some c' ∧
      ((numVals exScore.cells).isEmpty = true → c' = exScore) ∧
      ((numVals exScore.cells).isEmpty = false →
        c'.cells = exScore.cells.map
          (fun cell => some (cell.getD (Value.num (listMean (numVals exScore.cells))))) ∧
        ∀ x ∈ c'.cells, x ≠ none) :=
  fill_numeric_mean_fills exNumFill optsNumFill rfl 0 exScore rfl rfl

/-- C3 counterexample: on the column "b", "a", missing (a 1–1 tie between
"b" and "a", with "b" encountered first), the code fills the missing cell
with "a" — the least tied value after `np.sort` — while the claim's
first-encountered tie-break names "b". -/
theorem mode_tiebreak_not_first_encountered :
    (clean exTie optsCatFill).cols.map Column.cells =
        [[some (Value.str "b"), some (Value.str "a"), some (Value.str "a")]] ∧
      modeFirstEncountered [some (Value.str "b"), some (Value.str "a"), none] =
        some (Value.str "b") ∧
      Value.str "a" ≠ Value.str "b" := by
  refine ⟨?_, ?_, ?_⟩ <;> decide

/-- C3 (amended): with `fillCategoricalMode` enabled, every column that is
non-numeric in the state after the prior steps comes out with each missing
cell replaced by that column's most frequent non-missing value, ties broken
by the least value in the `np.sort` ascending order (not by first
encounter), hence with no missing cells, provided it had at least one
non-missing value; an all-missing column passes through unchanged. -/
theorem fill_categorical_mode_fills (ds : Dataset) (opts : CleaningOptions)
    (hopt : opts.fillCategoricalMode = true) (i : Nat) (c : Column)
    (hc : (cleanThroughNumeric ds opts).cols[i]? = some c)
    (hnum : c.numeric = false) :
    ∃ c', (clean ds opts).cols[i]? = some c' ∧
      (nonMissing c.cells = [] → c' = c) ∧
      (nonMissing c.cells ≠ [] →
        ∃ m, modeZero c.cells = some m ∧
          m ∈ nonMissing c.cells ∧
          (∀ v ∈ nonMissing c.cells,
            (nonMissing c.cells).count v ≤ (nonMissing c.cells).count m) ∧
          (∀ v ∈ nonMissing c.cells,
            (nonMissing c.cells).count v = (nonMissing c.cells).count m →
              Value.le m v = true) ∧
          c'.cells = c.cells.map (fun cell => some (cell.getD m)) ∧
          ∀ x ∈ c'.cells, x ≠ none) := by
  rw [clean_fillCat_expand ds opts hopt]
  refine ⟨fillCategoricalCol c, ?_, ?_, ?_⟩
  · simp only [fillCategoricalStep, List.getElem?_map, hc]
    rfl
  · intro hemp
    simp [fillCategoricalCol, hnum, modeZero_eq_none c.cells hemp]
  · intro hne
    obtain ⟨m, hm⟩ := modeZero_isSome c.cells hne
    obtain ⟨hmem, hmax, htie⟩ := modeZero_spec c.cells m hm
    refine ⟨m, hm, hmem, hmax, htie, ?_, ?_⟩
    · simp [fillCategoricalCol, hnum, hm]
    · intro x hx
      have hcells : (fillCategoricalCol c).cells =
          c.cells.map (fun cell => some (cell.getD m)) := by
        simp [fillCategoricalCol, hnum, hm]
      rw [hcells] at hx
      obtain ⟨y, _, rfl⟩ := List.mem_map.mp hx
      simp

/-- Witness for the amended C3 at a text column with one non-missing value
and one missing cell, mode fill enabled alone. -/
theorem fill_categorical_mode_fills_witness :
    ∃ c', (clean exCatFill optsCatFill).cols[0]? = some c' ∧
      (nonMissing exCity.cells = [] → c' = exCity) ∧
      (nonMissing exCity.cells ≠ [] →
        ∃ m, modeZero exCity.cells = some m ∧
          m ∈ nonMissing exCity.cells ∧
          (∀ v ∈ nonMissing exCity.cells,
            (nonMissing exCity.cells).count v ≤ (nonMissing exCity.cells).count m) ∧
          (∀ v ∈ nonMissing exCity.cells,
            (nonMissing exCity.cells).count v = (nonMissing exCity.cells).count m →
              Value.le m v = true) ∧
          c'.cells = exCity.cells.map (fun cell => some (cell.getD m)) ∧
          ∀ x ∈ c'.cells, x ≠ none) :=
  fill_categorical_mode_fills exCatFill optsCatFill rfl 0 exCity rfl rfl
